import Mathlib

/-!
Shallow embedding of the worker-api server core (src/index.js) and proofs
about the frozen claims on its specification.

Conventions of the embedding:
* JavaScript strings are Lean `String`s; `x || ""` on a possibly-null string
  is modelled with `Option String` and `Option.getD`.
* `Date.now()` timestamps are `Int` milliseconds; TTLs are `Nat` seconds.
* A raw column `value` (a JSON string in the source) is modelled as
  `Option (Option τ)` where the outer `none` is a falsy/absent value, the
  inner `none` a JSON.parse failure (caught in the source), and `some v`
  a successfully parsed structure of the column's kind.
* The in-memory cache `_cache` (a JS `Map`) is an association list keyed
  by `String`; the diagnostic `size` field (used only by the /debug
  cache listing, not by get/set semantics) is omitted.
-/

namespace WorkerApi

/-- JS `\w` word character class: ASCII letters, digits and underscore. -/
def isWordChar (c : Char) : Bool := c.isAlphanum || c == '_'

/-- Substring test on character lists (JS `String.prototype.includes`). -/
def hasInfix (needle : List Char) : List Char → Bool
  | [] => needle.isEmpty
  | c :: t => needle.isPrefixOf (c :: t) || hasInfix needle t

/-- JS `hay.includes(needle)`. -/
def containsStr (hay needle : String) : Bool := hasInfix needle.toList hay.toList

/-- JS `o || d` for a possibly-null/undefined string `o`
(`none` = null/undefined, `some ""` is falsy too). -/
def jsOrS (o : Option String) (d : String) : String :=
  match o with
  | some s => if s = "" then d else s
  | none => d

/-- ASCII lower-casing of one character (`String.prototype.toLowerCase`
restricted to the ASCII range the source's labels use). -/
def jsToLowerChar (c : Char) : Char :=
  if 'A' ≤ c ∧ c ≤ 'Z' then Char.ofNat (c.toNat + 32) else c

/-- JS `s.toLowerCase()`. -/
def jsToLower (s : String) : String := String.mk (s.toList.map jsToLowerChar)

/-- JS `s.trim()`: strip leading and trailing whitespace. -/
def jsTrim (s : String) : String :=
  String.mk ((((s.toList.dropWhile Char.isWhitespace).reverse).dropWhile
    Char.isWhitespace).reverse)

/-- JS `s.startsWith(pre)`. -/
def strStartsWith (s pre : String) : Bool := pre.toList.isPrefixOf s.toList

/-- Lexicographic code-unit comparison of character lists. -/
def charsLe : List Char → List Char → Bool
  | [], _ => true
  | _ :: _, [] => false
  | a :: as, b :: bs => if a < b then true else if b < a then false else charsLe as bs

/-- JS `a <= b` on strings: lexicographic by code unit. -/
def jsLeStr (a b : String) : Bool := charsLe a.toList b.toList

/-- Case-insensitive substring test, modelling `/pat/i.test(s)` for a
pattern without regex metacharacters (the source's patterns are plain
lower-case words). -/
def containsCI (s pat : String) : Bool := containsStr (jsToLower s) pat

/-! ## TTL cache (src/index.js lines 35-57) -/

/-- Default TTL, `CACHE_TTL_SECONDS = 300`. -/
def CACHE_TTL_SECONDS : Nat := 300

/-- One `_cache` entry: `{ expires, data }` (`size` omitted, see header). -/
structure CacheEntry (V : Type) where
  data : V
  expires : Int
  deriving DecidableEq, Repr

/-- The `_cache` map, as an association list keyed by the cache key. -/
def Cache (V : Type) : Type := List (String × CacheEntry V)

instance (V : Type) [DecidableEq V] : DecidableEq (Cache V) := by
  unfold Cache; infer_instance

/-- `_cache.get(key)` without the expiry logic. -/
def cacheLookup {V : Type} (c : Cache V) (k : String) : Option (CacheEntry V) :=
  (c.find? (fun p => p.1 == k)).map (fun p => p.2)

/-- `_cache.delete(key)`. -/
def cacheErase {V : Type} (c : Cache V) (k : String) : Cache V :=
  c.filter (fun p => p.1 != k)

/-- `cacheGet(key)`: returns the stored value only if present and not
expired; a read strictly past `expires` deletes the entry and returns
absent.  The current time is passed explicitly (`Date.now()` in source). -/
def cacheGet {V : Type} (now : Int) (c : Cache V) (k : String) : Option V × Cache V :=
  match cacheLookup c k with
  | none => (none, c)
  | some e => if now > e.expires then (none, cacheErase c k) else (some e.data, c)

/-- `cacheSet(key, data, ttl)`: stores `data` with
`expires = now + ttl * 1000`, overwriting any prior entry for the key.
(The JS `Map.set` updates in place; the association list re-inserts at the
front — iteration order is irrelevant to every claim here.) -/
def cacheSet {V : Type} (now : Int) (c : Cache V) (k : String) (v : V) (ttl : Nat) : Cache V :=
  (k, ⟨v, now + (ttl : Int) * 1000⟩) :: cacheErase c k

/-! ## monday() helper (src/index.js lines 122-153)

`monday(query, variables, isFile, form)`: for non-file calls it first
consults the TTL cache under key
`"m:" + base64(query + "::" + JSON.stringify(variables))`, returns a hit
without contacting the upstream, and on a successful upstream response
stores `j.data` under that key with the default TTL.  Errors are thrown
and nothing is stored.  The upstream interaction is modelled as an
explicit `Except` outcome parameter and a counter of issued requests. -/

/-- The base64 alphabet character for a 6-bit value. -/
def base64Char (n : Nat) : Char :=
  if n < 26 then Char.ofNat (65 + n)
  else if n < 52 then Char.ofNat (97 + (n - 26))
  else if n < 62 then Char.ofNat (48 + (n - 52))
  else if n = 62 then '+' else '/'

/-- Standard base64 of a byte list (`Buffer.from(s).toString("base64")`). -/
def base64Encode : List Nat → String
  | [] => ""
  | [a] =>
    String.mk [base64Char (a / 4), base64Char (a % 4 * 16)] ++ "=="
  | [a, b] =>
    String.mk [base64Char (a / 4), base64Char (a % 4 * 16 + b / 16),
      base64Char (b % 16 * 4)] ++ "="
  | a :: b :: c :: rest =>
    String.mk [base64Char (a / 4), base64Char (a % 4 * 16 + b / 16),
      base64Char (b % 16 * 4 + c / 64), base64Char (c % 64)] ++ base64Encode rest

/-- Base64 of a string's UTF-8 bytes. -/
def base64OfString (s : String) : String :=
  base64Encode (s.toUTF8.data.toList.map (fun b => b.toNat))

/-- The cache key of a non-file monday() call: `variablesJson` stands for
`JSON.stringify(variables)`. -/
def mondayKey (query variablesJson : String) : String :=
  "m:" ++ base64OfString (query ++ "::" ++ variablesJson)

/-- The state threaded through monday() calls: the shared TTL cache and
the number of upstream HTTP requests issued so far. -/
structure MondayState (V : Type) where
  cache : Cache V
  upstreamCalls : Nat

/-- One `monday(query, variables, isFile)` call.  `upstream` is the
outcome the remote API would deliver if contacted.  File calls bypass the
cache entirely; non-file calls consult it first and populate it on
success. -/
def mondayCall {V : Type} (now : Int) (isFile : Bool) (query variablesJson : String)
    (upstream : Except String V) (st : MondayState V) :
    Except String V × MondayState V :=
  if isFile then
    (upstream, { cache := st.cache, upstreamCalls := st.upstreamCalls + 1 })
  else
    let key := mondayKey query variablesJson
    match cacheGet now st.cache key with
    | (some v, c1) => (Except.ok v, { cache := c1, upstreamCalls := st.upstreamCalls })
    | (none, c1) =>
      match upstream with
      | Except.ok v =>
        (Except.ok v,
         { cache := cacheSet now c1 key v CACHE_TTL_SECONDS,
           upstreamCalls := st.upstreamCalls + 1 })
      | Except.error e =>
        (Except.error e, { cache := c1, upstreamCalls := st.upstreamCalls + 1 })

/-- Equality on `Except` outcomes is decidable (needed to evaluate the
traversal model on concrete inputs). -/
instance {e a : Type} [DecidableEq e] [DecidableEq a] : DecidableEq (Except e a) := fun x y =>
  match x, y with
  | Except.ok u, Except.ok w =>
    if h : u = w then Decidable.isTrue (by rw [h]) else Decidable.isFalse (by simp [h])
  | Except.error u, Except.error w =>
    if h : u = w then Decidable.isTrue (by rw [h]) else Decidable.isFalse (by simp [h])
  | Except.ok u, Except.error w => Decidable.isFalse (by simp)
  | Except.error u, Except.ok w => Decidable.isFalse (by simp)

/-- The exact `create_item` mutation text sent by POST /timesheets
(src/index.js lines 1200-1204). -/
def createTsMutation : String :=
  "\n      mutation CreateTs($boardId: ID!, $itemName: String!, $columnVals: JSON!) \x7b\n        create_item(board_id: $boardId, item_name: $itemName, column_values: $columnVals) \x7b id \x7d\n      \x7d\n    "

/-! ## Paged traversal through monday() (for the /jobs/my route shape)

The /jobs/my handler issues one monday() call per page, each with its own
variables (the cursor changes per page), until the page's cursor is
absent; a thrown fetch error aborts the loop and reaches the route's
catch block.  On success the handler stores the assembled output in the
TTL cache under the whole-query key `jobs:email:onDate:...` and only
then responds.  Page payloads are abstracted to an opaque type: the
per-item processing is modelled separately by `runScan` below and does
not affect which cache entries exist. -/

/-- One upstream page: an opaque payload plus cursor presence. -/
structure RPage (V : Type) where
  data : V
  cursorPresent : Bool

/-- The page loop: fetch results are consumed in order through
`mondayCall`; a failure aborts with that error, otherwise pages are
accumulated until one arrives without a cursor (or the modelled stream
ends). `varsOf i` is the serialized variables of the i-th page request. -/
def runPagedTraversal {V : Type} (now : Int) (query : String) (varsOf : Nat → String)
    (idx : Nat) :
    List (Except String (RPage V)) → MondayState (RPage V) →
      Except String (List V) × MondayState (RPage V)
  | [], st => (Except.ok [], st)
  | r :: rest, st =>
    match mondayCall now false query (varsOf idx) r st with
    | (Except.error e, st1) => (Except.error e, st1)
    | (Except.ok page, st1) =>
      if page.cursorPresent then
        match runPagedTraversal now query varsOf (idx + 1) rest st1 with
        | (Except.ok vs, st2) => (Except.ok (page.data :: vs), st2)
        | (Except.error e, st2) => (Except.error e, st2)
      else
        (Except.ok [page.data], st1)

/-- The route around the traversal: consult the route-level cache under the
whole-query key first; on traversal failure surface the error and store
nothing at the route level; on success store the complete result under the
route key and respond. -/
def jobsRouteRun {V : Type} (now : Int) (routeKey query : String) (varsOf : Nat → String)
    (upstream : List (Except String (RPage V))) (mst : MondayState (RPage V))
    (routeCache : Cache (List V)) :
    Except String (List V) × MondayState (RPage V) × Cache (List V) :=
  match cacheGet now routeCache routeKey with
  | (some out, rc1) => (Except.ok out, mst, rc1)
  | (none, rc1) =>
    match runPagedTraversal now query varsOf 0 upstream mst with
    | (Except.error e, mst1) => (Except.error e, mst1, rc1)
    | (Except.ok pages, mst1) =>
      (Except.ok pages, mst1, cacheSet now rc1 routeKey pages CACHE_TTL_SECONDS)

/-! ## Weekday check (src/index.js lines 712-717)

`isWeekend(iso)` builds `new Date(iso + "T12:00:00Z")` and tests the UTC
day of week.  The model parses a well-formed `YYYY-MM-DD` calendar date
and computes the day of week arithmetically; a string that is not a valid
calendar date yields an invalid JS date, whose NaN day compares unequal
to 0 and 6, so the function returns false — modelled by the parse
failing. -/

/-- Days in a month of the proleptic Gregorian calendar. -/
def daysInMonth (y : Int) (m : Nat) : Nat :=
  if m = 2 then
    if y % 4 = 0 ∧ (y % 100 ≠ 0 ∨ y % 400 = 0) then 29 else 28
  else if m = 4 ∨ m = 6 ∨ m = 9 ∨ m = 11 then 30
  else 31

/-- Parse a strict `YYYY-MM-DD` string into a valid calendar date. -/
def parseISODate (s : String) : Option (Int × Nat × Nat) :=
  match s.toList with
  | [y1, y2, y3, y4, h1, m1, m2, h2, d1, d2] =>
    if y1.isDigit ∧ y2.isDigit ∧ y3.isDigit ∧ y4.isDigit ∧ h1 = '-' ∧
       m1.isDigit ∧ m2.isDigit ∧ h2 = '-' ∧ d1.isDigit ∧ d2.isDigit then
      let y : Int := Int.ofNat (((y1.toNat - 48) * 10 + (y2.toNat - 48)) * 100 +
        (y3.toNat - 48) * 10 + (y4.toNat - 48))
      let m : Nat := (m1.toNat - 48) * 10 + (m2.toNat - 48)
      let d : Nat := (d1.toNat - 48) * 10 + (d2.toNat - 48)
      if 1 ≤ m ∧ m ≤ 12 ∧ 1 ≤ d ∧ d ≤ daysInMonth y m then some (y, m, d) else none
    else none
  | _ => none

/-- Days since 1970-01-01 of a Gregorian date (civil-days algorithm). -/
def daysFromCivil (y : Int) (m d : Nat) : Int :=
  let yy : Int := if m ≤ 2 then y - 1 else y
  let era : Int := (if 0 ≤ yy then yy else yy - 399) / 400
  let yoe : Int := yy - era * 400
  let mp : Int := ((m : Int) + 9) % 12
  let doy : Int := (153 * mp + 2) / 5 + (d : Int) - 1
  let doe : Int := yoe * 365 + yoe / 4 - yoe / 100 + doy
  era * 146097 + doe - 719468

/-- `isWeekend(iso)`: the UTC day of week of the noon-anchored timestamp
is Sunday (0) or Saturday (6); false for an empty or invalid date. -/
def isWeekend (iso : String) : Bool :=
  match parseISODate iso with
  | none => false
  | some (y, m, d) =>
    let dow := (daysFromCivil y m d + 4) % 7
    dow == 0 || dow == 6

/-! ## The /jobs/my assignments scan (src/index.js lines 695-834)

Records carry a map of column values keyed by column id.  A raw `value`
is typed by the column kind it parses as: a board-relation (connect)
value or a timeline value. -/

/-- One element of `linkedPulseIds` / `linkedItemIds`. -/
structure LinkedRef where
  linkedPulseId : Option String
  linkedItemId : Option String
  deriving DecidableEq, Repr

/-- A parsed connect-boards column value. -/
structure ConnectVal where
  linkedPulseIds : Option (List LinkedRef)
  linkedItemIds : Option (List LinkedRef)
  deriving DecidableEq, Repr

/-- A parsed timeline column value (`from` / `to`, renamed because `from`
is reserved in Lean). -/
structure TimelineVal where
  fromDate : Option String
  toDate : Option String
  deriving DecidableEq, Repr

/-- A parsed raw column value, by column kind. -/
inductive RawJson where
  | connect (v : ConnectVal)
  | timeline (v : TimelineVal)
  deriving DecidableEq, Repr

/-- A column value as returned by the jobs query: rendered `text` and raw
`value` (outer `none`: falsy/absent; inner `none`: JSON.parse failure). -/
structure JobsCV where
  text : Option String
  value : Option (Option RawJson)
  deriving DecidableEq, Repr

/-- A job subitem with its fetched column values. -/
structure Subitem where
  id : String
  name : String
  cols : List (String × JobsCV)
  deriving DecidableEq, Repr

/-- A parent job item: its id/name, the first address column text
(`job.column_values?.[0]?.text`), and its subitems (`null` possible). -/
structure JobItem where
  id : String
  name : String
  addressText : Option String
  subitems : Option (List Subitem)
  deriving DecidableEq, Repr

/-- One page of the jobs query. -/
structure JobsPage where
  items : List JobItem
  cursorPresent : Bool
  deriving DecidableEq, Repr

/-- The column-id configuration from the environment (`none` = unset). -/
structure JobsCfg where
  contractorColId : Option String
  timelineColId : Option String
  jobNumberColId : Option String
  descriptionColId : Option String
  emailColId : Option String
  deriving DecidableEq, Repr

/-- `sCols[id]` lookup, where the id itself may be an unset env var. -/
def colGet (cols : List (String × JobsCV)) (id : Option String) : Option JobsCV :=
  match id with
  | none => none
  | some i => (cols.find? (fun p => p.1 == i)).map (fun p => p.2)

/-- `sCols[id]?.value`. -/
def cvValue (cols : List (String × JobsCV)) (id : Option String) : Option (Option RawJson) :=
  match colGet cols id with
  | none => none
  | some cv => cv.value

/-- `String(x.linkedPulseId ?? x.linkedItemId)` for one linked ref
(`String(undefined)` is the literal `"undefined"`). -/
def refIdStr (x : LinkedRef) : String :=
  match x.linkedPulseId with
  | some s => s
  | none =>
    match x.linkedItemId with
    | some s => s
    | none => "undefined"

/-- `parseConnectIds(value)` (src/index.js lines 156-165): empty on a
falsy value or parse failure; otherwise
`(v.linkedPulseIds || v.linkedItemIds || []).map(x => String(x.linkedPulseId ?? x.linkedItemId))`.
A parsed value of a different column kind has neither key, yielding []. -/
def parseConnectIds (value : Option (Option RawJson)) : List String :=
  match value with
  | some (some (RawJson.connect v)) =>
    let raw := match v.linkedPulseIds with
      | some xs => xs
      | none => match v.linkedItemIds with
        | some xs => xs
        | none => []
    raw.map refIdStr
  | _ => []

/-- The timeline parse in the scan (src/index.js lines 793-801):
`startDate = tl?.from || ""`, `endDate = tl?.to || tl?.from || ""`;
a falsy value or a parse failure leaves both empty. -/
def timelineDates (value : Option (Option RawJson)) : String × String :=
  match value with
  | some (some (RawJson.timeline tl)) =>
    (jsOrS tl.fromDate "", jsOrS tl.toDate (jsOrS tl.fromDate ""))
  | _ => ("", "")

/-- The identity-match test on one child (src/index.js lines 784-791):
link match (`parseConnectIds(...).includes(contractorId)`) or, when the
email column is configured, the child's email text trimmed and
lower-cased equals the normalized requester email. -/
def childMatches (cfg : JobsCfg) (contractorId email : String) (s : Subitem) : Bool :=
  let matchByLink := (parseConnectIds (cvValue s.cols cfg.contractorColId)).contains contractorId
  let matchByEmail :=
    match cfg.emailColId with
    | none => false
    | some eid =>
      jsToLower (jsTrim (((colGet s.cols (some eid)).bind (fun cv => cv.text)).getD "")) == email
  matchByLink || matchByEmail

/-- The optional temporal filter (src/index.js lines 803-806): with a
non-empty `onDate`, weekend discard first (when weekends are excluded),
then the inclusive range test `onDate >= startDate && onDate <= endDate`
as JS string comparison. -/
def passesDate (onDate : String) (includeWeekends : Bool) (startDate endDate : String) : Bool :=
  if onDate == "" then true
  else if !includeWeekends && isWeekend onDate then false
  else jsLeStr startDate onDate && jsLeStr onDate endDate

/-- Full per-child inclusion test: identity match, then temporal filter
on the child's timeline column. -/
def childPasses (cfg : JobsCfg) (contractorId email onDate : String)
    (includeWeekends : Bool) (s : Subitem) : Bool :=
  childMatches cfg contractorId email s &&
    (let tl := timelineDates (cvValue s.cols cfg.timelineColId)
     passesDate onDate includeWeekends tl.1 tl.2)

/-- The request parameters of one /jobs/my scan. -/
structure ScanParams where
  cfg : JobsCfg
  contractorId : String
  email : String
  onDate : String
  includeWeekends : Bool
  offset : Nat
  limit : Nat
  deriving Repr

/-- One emitted result row. -/
structure ResultRow where
  parentJobId : String
  parentJobName : String
  address : String
  subitemId : String
  subitemName : String
  jobNumber : String
  description : String
  timelineStart : String
  timelineEnd : String
  deriving DecidableEq, Repr

/-- The row pushed for an included child. -/
def mkRow (cfg : JobsCfg) (job : JobItem) (s : Subitem) : ResultRow :=
  let tl := timelineDates (cvValue s.cols cfg.timelineColId)
  { parentJobId := job.id
    parentJobName := job.name
    address := job.addressText.getD ""
    subitemId := s.id
    subitemName := s.name
    jobNumber := ((colGet s.cols cfg.jobNumberColId).bind (fun cv => cv.text)).getD ""
    description := ((colGet s.cols cfg.descriptionColId).bind (fun cv => cv.text)).getD ""
    timelineStart := tl.1
    timelineEnd := tl.2 }

/-- The mutable loop state: `totalPossible`, `collected`, the pushed
rows, and whether `break loopPages` has fired. -/
structure ScanState where
  total : Nat
  collected : Nat
  results : List ResultRow
  stopped : Bool
  deriving DecidableEq, Repr

/-- The initial state. -/
def scanInit : ScanState := { total := 0, collected := 0, results := [], stopped := false }

/-- Processing of one subitem (src/index.js lines 784-823): skip a
non-passing child; for a passing child bump `totalPossible`, push it when
it falls in the requested window, then fire the early-termination break
when `collected >= limit && totalPossible >= offset + limit`. -/
def scanStep (P : ScanParams) (job : JobItem) (st : ScanState) (s : Subitem) : ScanState :=
  if st.stopped then st
  else if !childPasses P.cfg P.contractorId P.email P.onDate P.includeWeekends s then st
  else
    let total1 := st.total + 1
    let push := decide (total1 > P.offset) && decide (st.collected < P.limit)
    let results1 := if push then st.results ++ [mkRow P.cfg job s] else st.results
    let collected1 := if push then st.collected + 1 else st.collected
    { total := total1
      collected := collected1
      results := results1
      stopped := decide (collected1 ≥ P.limit) && decide (total1 ≥ P.offset + P.limit) }

/-- The inner subitem loop of one job. -/
def scanSubs (P : ScanParams) (job : JobItem) (st : ScanState) : ScanState :=
  ((job.subitems).getD []).foldl (scanStep P job) st

/-- The item loop of one fetched page. -/
def scanJobsPage (P : ScanParams) (items : List JobItem) (st : ScanState) : ScanState :=
  items.foldl (fun acc j => scanSubs P j acc) st

/-- The `loopPages` do/while: fetch a page, process its items, stop when
the break fired or the cursor is absent; also returns how many pages were
fetched.  The modelled stream supplies finitely many pages. -/
def runScan (P : ScanParams) : List JobsPage → ScanState → ScanState × Nat
  | [], st => (st, 0)
  | p :: rest, st =>
    let st1 := scanJobsPage P p.items st
    if st1.stopped then (st1, 1)
    else if p.cursorPresent then
      let out := runScan P rest st1
      (out.1, out.2 + 1)
    else (st1, 1)

/-- Number of passing children in a list of subitems. -/
def passCountSubs (P : ScanParams) (subs : List Subitem) : Nat :=
  (subs.filter (childPasses P.cfg P.contractorId P.email P.onDate P.includeWeekends)).length

/-- Number of passing children in a page's items. -/
def passCountPage (P : ScanParams) (items : List JobItem) : Nat :=
  (items.map (fun j => passCountSubs P ((j.subitems).getD []))).sum

/-- Number of passing children across a list of pages. -/
def passCountPages (P : ScanParams) (pages : List JobsPage) : Nat :=
  (pages.map (fun p => passCountPage P p.items)).sum

/-- The loop invariant of the scan state: `collected` is the window-clipped
number of matches seen, and the break flag holds exactly when the
early-termination condition does. -/
def scanInv (P : ScanParams) (st : ScanState) : Prop :=
  st.collected = min P.limit (st.total - P.offset) ∧
  (st.stopped = true ↔ (P.limit ≤ st.collected ∧ P.offset + P.limit ≤ st.total))

/-! ## Status classifiers (src/index.js lines 1116-1131 and 2043-2056) -/

/-- `^approved\b`: the normalized label starts with "approved" and the
next character, if any, is not a word character. -/
def startsWordApproved (g : String) : Bool :=
  let cs := g.toList
  "approved".toList.isPrefixOf cs &&
    (match cs.drop 8 with
     | [] => true
     | c :: _ => !isWordChar c)

/-- The status-from-group-title rule of the first-registered (dispatched)
GET /timesheets handler (src/index.js lines 1116-1131). -/
def classify (groupTitleRaw : String) : String :=
  let g := jsToLower (jsTrim groupTitleRaw)
  if containsStr g "to be approved" then "pending"
  else if containsStr g "payroll processed" || containsStr g "approved - upcoming payroll"
      || startsWordApproved g then "approved"
  else "pending"

/-- The status rule of the second, shadowed GET /timesheets copy
(src/index.js lines 2043-2056): lower-case only, then a broad substring
test for "approved" or "payroll". -/
def classifyLegacy (groupTitleRaw : String) : String :=
  let g := jsToLower groupTitleRaw
  if containsStr g "approved" || containsStr g "payroll" then "approved" else "pending"

/-- The spec's precedence rules as an explicit ordered (predicate, label)
table, evaluated top-to-bottom with default "pending" (spec section 4.5). -/
def classifyRules : List ((String → Bool) × String) :=
  [(fun g => containsStr g "to be approved", "pending"),
   (fun g => containsStr g "payroll processed", "approved"),
   (fun g => containsStr g "approved - upcoming payroll", "approved"),
   (fun g => startsWordApproved g, "approved")]

/-- Modelled from the spec: classification by the first matching rule of
the precedence table after trimming and lower-casing. -/
def classifySpec (label : String) : String :=
  let g := jsToLower (jsTrim label)
  ((classifyRules.find? (fun r => r.1 g)).map (fun r => r.2)).getD "pending"

/-! ## splitJobTokens (src/index.js lines 348-355) -/

/-- Match of `/\b\d{4}-\d\b/` anchored at the current position, given the
previous character (none at the start of the string). -/
def subMatchHere (prev : Option Char) (cs : List Char) : Option String :=
  match cs with
  | d1 :: d2 :: d3 :: d4 :: h :: d5 :: rest =>
    if (prev.all (fun c => !isWordChar c)) &&
       d1.isDigit && d2.isDigit && d3.isDigit && d4.isDigit &&
       h == '-' && d5.isDigit &&
       (match rest with
        | [] => true
        | c :: _ => !isWordChar c) then
      some (String.mk [d1, d2, d3, d4, h, d5])
    else none
  | _ => none

/-- Leftmost match of `/\b\d{4}-\d\b/`. -/
def findFirstSub (prev : Option Char) (cs : List Char) : Option String :=
  match subMatchHere prev cs with
  | some m => some m
  | none =>
    match cs with
    | [] => none
    | c :: rest => findFirstSub (some c) rest

/-- Match of `/\b(\d{4})\b/` anchored at the current position. -/
def mainMatchHere (prev : Option Char) (cs : List Char) : Option String :=
  match cs with
  | d1 :: d2 :: d3 :: d4 :: rest =>
    if (prev.all (fun c => !isWordChar c)) &&
       d1.isDigit && d2.isDigit && d3.isDigit && d4.isDigit &&
       (match rest with
        | [] => true
        | c :: _ => !isWordChar c) then
      some (String.mk [d1, d2, d3, d4])
    else none
  | _ => none

/-- Leftmost match of `/\b(\d{4})\b/`. -/
def findFirstMain (prev : Option Char) (cs : List Char) : Option String :=
  match mainMatchHere prev cs with
  | some m => some m
  | none =>
    match cs with
    | [] => none
    | c :: rest => findFirstMain (some c) rest

/-- The `{subToken, mainToken}` pair. -/
structure JobTokens where
  mainToken : String
  subToken : String
  deriving DecidableEq, Repr

/-- `splitJobTokens(jobNumRaw)`: sub token from the 4-digit-dash-digit
pattern; if found, the main token is its prefix before the dash
(`subToken.split("-")[0]`), otherwise the bare 4-digit pattern is tried. -/
def splitJobTokens (jobNumRaw : String) : JobTokens :=
  let subToken := (findFirstSub none jobNumRaw.toList).getD ""
  let mainToken :=
    if subToken != "" then String.mk (subToken.toList.takeWhile (fun c => c != '-'))
    else (findFirstMain none jobNumRaw.toList).getD ""
  { mainToken := mainToken, subToken := subToken }

/-! ## Materials resolution (src/index.js lines 347-539) -/

/-- One element of a supplier relation's `linkedPulseIds`: the
`linkedPulseId` key if present, else the stringification of the element
itself (`String(x?.linkedPulseId ?? x)`). -/
structure RelRef where
  linkedPulseId : Option String
  selfRepr : String
  deriving DecidableEq, Repr

/-- A parsed board-relation value on the materials boards. -/
structure RelVal where
  linkedPulseIds : Option (List RelRef)
  deriving DecidableEq, Repr

/-- A materials-board column value. -/
structure MatCV where
  text : Option String
  value : Option (Option RelVal)
  deriving DecidableEq, Repr

/-- A materials record (a sub-board item, or a parent's subitem). -/
structure MatItem where
  id : String
  name : String
  cols : List (String × MatCV)
  deriving DecidableEq, Repr

/-- One page of the flat sub-materials board. -/
structure SubPage where
  items : List MatItem
  cursorPresent : Bool
  deriving DecidableEq, Repr

/-- A parent materials item with its subitems (`null` possible). -/
structure ParentItem where
  id : String
  name : String
  subitems : Option (List MatItem)
  deriving DecidableEq, Repr

/-- One page of the parent materials board. -/
structure ParentPage where
  items : List ParentItem
  cursorPresent : Bool
  deriving DecidableEq, Repr

/-- The materials environment configuration (`""` = unset env var). -/
structure MatCfg where
  subBoardId : String
  parentBoardId : String
  titleColId : String
  notesColId : String
  statusColId : String
  supplierColId : String
  deriving DecidableEq, Repr

/-- `cvText(cvs, id)`: `String(cvs[id]?.text ?? "").trim()`. -/
def cvTextM (cols : List (String × MatCV)) (colId : String) : String :=
  jsTrim ((((cols.find? (fun p => p.1 == colId)).map (fun p => p.2)).bind
    (fun cv => cv.text)).getD "")

/-- `cvRelation(cvs, id)` (src/index.js lines 384-403): display text and
linked ids (`filter(Boolean)` drops empty strings). -/
def cvRelationM (cols : List (String × MatCV)) (colId : String) : String × List String :=
  match (cols.find? (fun p => p.1 == colId)).map (fun p => p.2) with
  | none => ("", [])
  | some cv =>
    let text := jsTrim (cv.text.getD "")
    let ids :=
      match cv.value with
      | some (some rv) =>
        ((rv.linkedPulseIds.getD []).map
          (fun x => x.linkedPulseId.getD x.selfRepr)).filter (fun s => s ≠ "")
      | _ => []
    (text, ids)

/-- One resolved material line. -/
structure MatRow where
  id : String
  name : String
  title : String
  notes : String
  status : String
  supplier : String
  supplierIds : List String
  deriving DecidableEq, Repr

/-- The row built per included record in either mode (blank status
defaults to "Uncategorised", supplier only when that column is set). -/
def mkMatRow (cfg : MatCfg) (it : MatItem) : MatRow :=
  let supplier := if cfg.supplierColId = "" then ("", ([] : List String))
    else cvRelationM it.cols cfg.supplierColId
  { id := it.id
    name := it.name
    title := cvTextM it.cols cfg.titleColId
    notes := cvTextM it.cols cfg.notesColId
    status := (let s := cvTextM it.cols cfg.statusColId
               if s = "" then "Uncategorised" else s)
    supplier := supplier.1
    supplierIds := supplier.2 }

/-- Insertion-ordered grouping map update. -/
def addToGroup (m : List (String × List MatRow)) (k : String) (r : MatRow) :
    List (String × List MatRow) :=
  match m with
  | [] => [(k, [r])]
  | (k1, rs) :: t => if k1 == k then (k1, rs ++ [r]) :: t else (k1, rs) :: addToGroup t k r

/-- `groupByStatus(rows)` (src/index.js lines 357-365). -/
def groupByStatus (rows : List MatRow) : List (String × List MatRow) :=
  rows.foldl (fun m r => addToGroup m (if r.status = "" then "Uncategorised" else r.status) r) []

/-- Mode A page walk: every page until the cursor is absent, keeping the
records whose display name starts with the sub token. -/
def caseARows (cfg : MatCfg) (subToken : String) : List SubPage → List MatRow
  | [] => []
  | p :: rest =>
    (p.items.filter (fun it => strStartsWith it.name subToken)).map (mkMatRow cfg) ++
      (if p.cursorPresent then caseARows cfg subToken rest else [])

/-- Mode B parent search: first record whose display name starts with the
main token; the loop stops at the page where it is found. -/
def findParent (mainToken : String) : List ParentPage → Option ParentItem
  | [] => none
  | p :: rest =>
    match p.items.find? (fun it => strStartsWith it.name mainToken) with
    | some it => some it
    | none => if p.cursorPresent then findParent mainToken rest else none

/-- The records a full cursor walk would traverse, in order. -/
def pagesJoin : List ParentPage → List ParentItem
  | [] => []
  | p :: rest => p.items ++ (if p.cursorPresent then pagesJoin rest else [])

/-- Mode B line selection: all of the parent's subitems except those whose
display name starts with `mainToken + "-"`. -/
def caseBRows (cfg : MatCfg) (mainToken : String) (sis : List MatItem) : List MatRow :=
  (sis.filter (fun si => !(strStartsWith si.name (mainToken ++ "-")))).map (mkMatRow cfg)

/-- The materials result: mode label and status-grouped lines. -/
structure MaterialsResult where
  mode : String
  byStatus : List (String × List MatRow)
  deriving DecidableEq, Repr

/-- `getMaterialsForJob(jobNumRaw, matScopeStatus)` (src/index.js lines
413-539).  `matScopeStatus` is the trimmed status text (`""` when the
column is absent); board pages are passed in as the data the cursor walk
would deliver. -/
def getMaterialsForJob (cfg : MatCfg) (subPages : List SubPage)
    (parentPages : List ParentPage) (jobNumRaw matScopeStatus : String) :
    Option MaterialsResult :=
  if matScopeStatus == "" || containsCI matScopeStatus "no materials" then none
  else
    let t := splitJobTokens jobNumRaw
    let wantOnlySub := containsCI matScopeStatus "only sub task materials"
    let wantMain := containsCI matScopeStatus "include main scope materials"
    if cfg.titleColId == "" || cfg.notesColId == "" || cfg.statusColId == "" then none
    else if wantOnlySub then
      if t.subToken == "" || cfg.subBoardId == "" then none
      else
        let rows := caseARows cfg t.subToken subPages
        if rows.isEmpty then none
        else some { mode := "Only Sub Task Materials", byStatus := groupByStatus rows }
    else if wantMain then
      if t.mainToken == "" || cfg.parentBoardId == "" then none
      else
        match findParent t.mainToken parentPages with
        | none => none
        | some parent =>
          match parent.subitems with
          | none => none
          | some sis =>
            let rows := caseBRows cfg t.mainToken sis
            if rows.isEmpty then none
            else some { mode := "Include Main Scope Materials", byStatus := groupByStatus rows }
    else none

theorem cacheLookup_cons_self {V : Type} (e : CacheEntry V) (c : Cache V) (k : String) :
    cacheLookup ((k, e) :: c) k = some e := by
  simp [cacheLookup, List.find?]

theorem cacheLookup_erase {V : Type} (c : Cache V) (k : String) :
    cacheLookup (cacheErase c k) k = none := by
  induction c with
  | nil => rfl
  | cons p t ih =>
    obtain ⟨a, e⟩ := p
    by_cases h : a = k
    · have hb : (a != k) = false := by simp [h]
      simp only [cacheErase, List.filter, hb]
      exact ih
    · have hb : (a != k) = true := by simp [h]
      simp only [cacheErase, List.filter, hb] at ih ⊢
      have hk : (a == k) = false := by simp [h]
      simp only [cacheLookup, List.find?, hk]
      exact ih

/-- Reading a freshly set key at a time not past its expiry returns the
stored value and leaves the cache unchanged. -/
theorem cacheGet_set_live {V : Type} (now rd : Int) (c : Cache V) (k : String) (v : V)
    (ttl : Nat) (h : rd ≤ now + (ttl : Int) * 1000) :
    cacheGet rd (cacheSet now c k v ttl) k = (some v, cacheSet now c k v ttl) := by
  have hx : ¬ rd > now + (ttl : Int) * 1000 := not_lt.mpr h
  simp [cacheGet, cacheSet, cacheLookup_cons_self, hx]

/-- Reading a freshly set key strictly past its expiry returns absent and
evicts the entry. -/
theorem cacheGet_set_expired {V : Type} (now rd : Int) (c : Cache V) (k : String) (v : V)
    (ttl : Nat) (h : rd > now + (ttl : Int) * 1000) :
    (cacheGet rd (cacheSet now c k v ttl) k).1 = none ∧
    cacheLookup (cacheGet rd (cacheSet now c k v ttl) k).2 k = none := by
  constructor
  · simp [cacheGet, cacheSet, cacheLookup_cons_self, h]
  · simp only [cacheGet, cacheSet, cacheLookup_cons_self, h, if_pos]
    have h2 : cacheErase ((k, (⟨v, now + (ttl : Int) * 1000⟩ : CacheEntry V)) :: cacheErase c k) k
        = cacheErase (cacheErase c k) k := by
      simp [cacheErase, List.filter]
    rw [h2]
    exact cacheLookup_erase _ _

/-- A get that reports a miss leaves no entry for the key behind
(either the key was absent, or the expired entry was just evicted). -/
theorem cacheGet_none_lookup {V : Type} (now : Int) (c : Cache V) (k : String)
    (h : (cacheGet now c k).1 = none) :
    cacheLookup (cacheGet now c k).2 k = none := by
  unfold cacheGet at h ⊢
  cases hl : cacheLookup c k with
  | none => simp [hl]
  | some e =>
    simp only [hl] at h ⊢
    by_cases hx : now > e.expires
    · simp only [hx, if_pos]
      exact cacheLookup_erase _ _
    · simp [hx] at h

/-! ## Claim C5 — TTL cache get/set semantics -/

/-- C5, counterexample: the claim states an entry is logically absent AT
`expiresAt`, but `cacheGet` tests `Date.now() > v.expires` strictly, so a
read exactly at the expiry instant (set at 0 with ttl 1s, read at
1000 ms) still returns the value. -/
theorem c5_counterexample :
    (cacheGet 1000 (cacheSet 0 ([] : Cache String) "k" "v" 1) "k").1 = some "v" := by
  decide

/-- C5, amended: `set` then an immediate `get` returns the value; a `get`
strictly more than `ttl` after the `set` returns absent and evicts the
entry; and the entry is visible while `now ≤ expiresAt` (not `<`) —
strictly past `expiresAt` it is logically absent. -/
theorem c5_cache_ttl :
    ∀ (V : Type) (k : String) (v : V) (ttl : Nat) (now rd : Int) (c : Cache V),
      (cacheGet now (cacheSet now c k v ttl) k).1 = some v ∧
      (rd > now + (ttl : Int) * 1000 →
        (cacheGet rd (cacheSet now c k v ttl) k).1 = none ∧
        cacheLookup (cacheGet rd (cacheSet now c k v ttl) k).2 k = none) ∧
      (rd ≤ now + (ttl : Int) * 1000 →
        (cacheGet rd (cacheSet now c k v ttl) k).1 = some v) := by
  intro V k v ttl now rd c
  refine ⟨?_, ?_, ?_⟩
  · have h : now ≤ now + (ttl : Int) * 1000 := by omega
    rw [cacheGet_set_live now now c k v ttl h]
  · intro h
    exact cacheGet_set_expired now rd c k v ttl h
  · intro h
    rw [cacheGet_set_live now rd c k v ttl h]

/-- C5 witness: a concrete set/get/expiry run through the theorem. -/
theorem c5_witness :
    (cacheGet 0 (cacheSet 0 ([] : Cache Nat) "k" 7 1) "k").1 = some 7 ∧
    (cacheGet 2000 (cacheSet 0 ([] : Cache Nat) "k" 7 1) "k").1 = none ∧
    (cacheGet 1000 (cacheSet 0 ([] : Cache Nat) "k" 7 1) "k").1 = some 7 :=
  ⟨(c5_cache_ttl Nat "k" 7 1 0 2000 []).1,
   ((c5_cache_ttl Nat "k" 7 1 0 2000 []).2.1 (by decide)).1,
   (c5_cache_ttl Nat "k" 7 1 0 1000 []).2.2 (by decide)⟩

/-! ## Claim C1 — status classification from group titles -/

/-- C1, counterexample: the claim quantifies over every code path that
derives a timesheet status from a group title, but the second (shadowed)
GET /timesheets copy uses broad substring tests, so it classifies
"To Be Approved" as "approved" instead of the claimed "pending". -/
theorem c1_counterexample : classifyLegacy "To Be Approved" = "approved" := by
  decide

/-- C1, amended: restricted to the first-registered GET /timesheets
handler (the one Express dispatches), classification agrees everywhere
with the spec's precedence-ordered rule table, and the four cited
examples hold; the shadowed legacy copy instead classifies any label
containing "approved" or "payroll" as approved. -/
theorem c1_dispatched_classifier :
    (∀ label, classify label = classifySpec label) ∧
    classify "To Be Approved" = "pending" ∧
    classify "Approved - Upcoming Payroll" = "approved" ∧
    classify "Payroll Processed" = "approved" ∧
    classify "Draft" = "pending" := by
  refine ⟨fun label => ?_, by decide, by decide, by decide, by decide⟩
  unfold classify classifySpec classifyRules
  by_cases h1 : containsStr (jsToLower (jsTrim label)) "to be approved" <;>
  by_cases h2 : containsStr (jsToLower (jsTrim label)) "payroll processed" <;>
  by_cases h3 : containsStr (jsToLower (jsTrim label)) "approved - upcoming payroll" <;>
  by_cases h4 : startsWordApproved (jsToLower (jsTrim label)) <;>
  simp [List.find?, h1, h2, h3, h4]

/-! ## Claim C6 — splitJobTokens -/

/-- C6: when the sub token is found, the main token is its prefix before
the dash (never re-matched independently); when neither pattern matches
both tokens are empty; and the three cited examples hold. -/
theorem c6_split_job_tokens :
    (∀ s : String, (splitJobTokens s).subToken ≠ "" →
       (splitJobTokens s).mainToken =
         String.mk (((splitJobTokens s).subToken).toList.takeWhile (fun c => c != '-'))) ∧
    (∀ s : String, findFirstSub none s.toList = none → findFirstMain none s.toList = none →
       splitJobTokens s = { mainToken := "", subToken := "" }) ∧
    splitJobTokens "2762-5 kitchen" = { mainToken := "2762", subToken := "2762-5" } ∧
    splitJobTokens "2762 kitchen" = { mainToken := "2762", subToken := "" } ∧
    splitJobTokens "no numbers" = { mainToken := "", subToken := "" } := by
  refine ⟨?_, ?_, by decide, by decide, by decide⟩
  · intro s h
    have hb : (((findFirstSub none s.toList).getD "") != "") = true :=
      bne_iff_ne.mpr h
    show (if (((findFirstSub none s.toList).getD "") != "") = true
          then String.mk (((findFirstSub none s.toList).getD "").toList.takeWhile
            (fun c => c != '-'))
          else (findFirstMain none s.toList).getD "") = _
    rw [if_pos hb]
    rfl
  · intro s h1 h2
    unfold splitJobTokens
    rw [h1, h2]
    rfl

/-- C6 witness: the derivation of the main token from the sub token at a
concrete input. -/
theorem c6_witness :
    (splitJobTokens "2762-5 kitchen").mainToken =
      String.mk (((splitJobTokens "2762-5 kitchen").subToken).toList.takeWhile
        (fun c => c != '-')) :=
  c6_split_job_tokens.1 "2762-5 kitchen" (by decide)

/-! ## Claim C7 — materials resolution guard/absent behavior -/

/-- C7: resolveMaterials returns absent (never an error) when the scope
status is absent or opts out with "no materials"; when a required column
id is unconfigured; when neither mode phrase matches; and when the
selected mode's required token is empty. -/
theorem c7_materials_guards :
    (∀ (cfg : MatCfg) (sp : List SubPage) (pp : List ParentPage) (jr ms : String),
        (ms == "" || containsCI ms "no materials") = true →
        getMaterialsForJob cfg sp pp jr ms = none) ∧
    (∀ (cfg : MatCfg) (sp : List SubPage) (pp : List ParentPage) (jr ms : String),
        (cfg.titleColId == "" || cfg.notesColId == "" || cfg.statusColId == "") = true →
        getMaterialsForJob cfg sp pp jr ms = none) ∧
    (∀ (cfg : MatCfg) (sp : List SubPage) (pp : List ParentPage) (jr ms : String),
        containsCI ms "only sub task materials" = false →
        containsCI ms "include main scope materials" = false →
        getMaterialsForJob cfg sp pp jr ms = none) ∧
    (∀ (cfg : MatCfg) (sp : List SubPage) (pp : List ParentPage) (jr ms : String),
        containsCI ms "only sub task materials" = true →
        (splitJobTokens jr).subToken = "" →
        getMaterialsForJob cfg sp pp jr ms = none) ∧
    (∀ (cfg : MatCfg) (sp : List SubPage) (pp : List ParentPage) (jr ms : String),
        containsCI ms "only sub task materials" = false →
        containsCI ms "include main scope materials" = true →
        (splitJobTokens jr).mainToken = "" →
        getMaterialsForJob cfg sp pp jr ms = none) := by
  refine ⟨?_, ?_, ?_, ?_, ?_⟩ <;> intro cfg sp pp jr ms
  · intro h
    simp [getMaterialsForJob, h]
  · intro h
    unfold getMaterialsForJob
    split
    · rfl
    · simp [h]
  · intro h1 h2
    unfold getMaterialsForJob
    split
    · rfl
    · simp [h1, h2]
  · intro h1 h2
    unfold getMaterialsForJob
    split
    · rfl
    · simp [h1, h2]
  · intro h1 h2 h3
    unfold getMaterialsForJob
    split
    · rfl
    · simp [h1, h2, h3]

/-- C7 witness: the explicit opt-out at a concrete call. -/
theorem c7_witness :
    getMaterialsForJob ⟨"", "", "", "", "", ""⟩ [] [] "2762" "" = none :=
  c7_materials_guards.1 ⟨"", "", "", "", "", ""⟩ [] [] "2762" "" (by decide)

/-! ## Claim C2 — identity match by relation link or email text -/

/-- C2: in a deployment with the subitem email column configured, a child
matches the resolved identity iff its relation-list field (parsed from the
raw value) contains the identity's id, or its email text trimmed and
lower-cased equals the normalized identity email — a non-exclusive OR. -/
theorem c2_match_by_link_or_email :
    ∀ (cfg : JobsCfg) (contractorId email eid : String) (s : Subitem),
      cfg.emailColId = some eid →
      (childMatches cfg contractorId email s = true ↔
        contractorId ∈ parseConnectIds (cvValue s.cols cfg.contractorColId) ∨
        jsToLower (jsTrim (((colGet s.cols (some eid)).bind (fun cv => cv.text)).getD ""))
          = email) := by
  intro cfg cid email eid s h
  simp [childMatches, h, Bool.or_eq_true]

/-- C2 witness: a child whose relation field links identity id "99"
matches that identity. -/
theorem c2_witness :
    childMatches ⟨some "c", none, none, none, some "e"⟩ "99" "a@b.com"
      ⟨"s1", "sub",
        [("c", ⟨none, some (some (RawJson.connect ⟨some [⟨some "99", none⟩], none⟩))⟩)]⟩
      = true :=
  (c2_match_by_link_or_email ⟨some "c", none, none, none, some "e"⟩ "99" "a@b.com" "e"
      ⟨"s1", "sub",
        [("c", ⟨none, some (some (RawJson.connect ⟨some [⟨some "99", none⟩], none⟩))⟩)]⟩
      rfl).mpr
    (Or.inl (by decide))

/-! ## Claim C9 — onDate range and weekend filtering -/

/-- C9: with an `onDate` supplied, a child is included iff it matches the
identity, is not discarded by the weekend rule (weekends excluded and
`onDate` a Saturday/Sunday in UTC), and `onDate` lies inclusively between
the timeline start and end; the end defaults to the start when the
timeline's `to` is absent or empty. -/
theorem c9_on_date_filter :
    (∀ (cfg : JobsCfg) (cid email onDate : String) (iw : Bool) (s : Subitem),
        onDate ≠ "" →
        (childPasses cfg cid email onDate iw s = true ↔
          (childMatches cfg cid email s = true ∧
           (iw = true ∨ isWeekend onDate = false) ∧
           jsLeStr (timelineDates (cvValue s.cols cfg.timelineColId)).1 onDate = true ∧
           jsLeStr onDate (timelineDates (cvValue s.cols cfg.timelineColId)).2 = true))) ∧
    (∀ tl : TimelineVal, (tl.toDate = none ∨ tl.toDate = some "") →
        (timelineDates (some (some (RawJson.timeline tl)))).2 =
          (timelineDates (some (some (RawJson.timeline tl)))).1) := by
  constructor
  · intro cfg cid email onDate iw s h
    have hb : (onDate == "") = false := beq_eq_false_iff_ne.mpr h
    cases iw <;> cases hw : isWeekend onDate <;>
      simp [childPasses, passesDate, hb, hw, Bool.and_eq_true, and_assoc]
  · intro tl h
    rcases h with h | h <;> simp [timelineDates, jsOrS, h]

/-- C9 witness: the inclusion characterization at a concrete request. -/
theorem c9_witness :
    childPasses ⟨none, none, none, none, none⟩ "1" "e" "2025-01-06" true
        ⟨"s", "s", []⟩ = true ↔
      (childMatches ⟨none, none, none, none, none⟩ "1" "e" ⟨"s", "s", []⟩ = true ∧
       (true = true ∨ isWeekend "2025-01-06" = false) ∧
       jsLeStr (timelineDates (cvValue [] none)).1 "2025-01-06" = true ∧
       jsLeStr "2025-01-06" (timelineDates (cvValue [] none)).2 = true) :=
  c9_on_date_filter.1 ⟨none, none, none, none, none⟩ "1" "e" "2025-01-06" true
    ⟨"s", "s", []⟩ (by decide)

/-! ## Claim C10 — monday() caches non-file calls, mutations included -/

/-- C10: a non-file monday() call consults the TTL cache first and stores
its result on success, so a second byte-identical call within the default
300-second TTL returns the first call's result without issuing another
upstream request — in particular a repeated identical create_item
submission returns the first creation's data and creates nothing new. -/
theorem c10_monday_request_caching :
    ∀ (V : Type) (q vars : String) (v : V) (r2 : Except String V) (now rd : Int)
      (st0 : MondayState V),
      cacheLookup st0.cache (mondayKey q vars) = none →
      rd ≤ now + 300000 →
      (mondayCall now false q vars (Except.ok v) st0).1 = Except.ok v ∧
      ((mondayCall now false q vars (Except.ok v) st0).2).upstreamCalls
        = st0.upstreamCalls + 1 ∧
      ((mondayCall now false q vars (Except.ok v) st0).2).cache
        = cacheSet now st0.cache (mondayKey q vars) v CACHE_TTL_SECONDS ∧
      (mondayCall rd false q vars r2
          ((mondayCall now false q vars (Except.ok v) st0).2)).1 = Except.ok v ∧
      ((mondayCall rd false q vars r2
          ((mondayCall now false q vars (Except.ok v) st0).2)).2).upstreamCalls
        = st0.upstreamCalls + 1 := by
  intro V q vars v r2 now rd st0 h hrd
  have hg : cacheGet now st0.cache (mondayKey q vars) = (none, st0.cache) := by
    unfold cacheGet
    rw [h]
  have h1 : mondayCall now false q vars (Except.ok v) st0 =
      (Except.ok v,
       { cache := cacheSet now st0.cache (mondayKey q vars) v CACHE_TTL_SECONDS,
         upstreamCalls := st0.upstreamCalls + 1 }) := by
    simp only [mondayCall, Bool.false_eq_true, if_false, hg]
  have hrd2 : rd ≤ now + (CACHE_TTL_SECONDS : Int) * 1000 := by
    unfold CACHE_TTL_SECONDS
    omega
  have hg2 : cacheGet rd (cacheSet now st0.cache (mondayKey q vars) v CACHE_TTL_SECONDS)
      (mondayKey q vars)
      = (some v, cacheSet now st0.cache (mondayKey q vars) v CACHE_TTL_SECONDS) :=
    cacheGet_set_live now rd st0.cache (mondayKey q vars) v CACHE_TTL_SECONDS hrd2
  have h2 : mondayCall rd false q vars r2
      ({ cache := cacheSet now st0.cache (mondayKey q vars) v CACHE_TTL_SECONDS,
         upstreamCalls := st0.upstreamCalls + 1 } : MondayState V) =
      (Except.ok v,
       { cache := cacheSet now st0.cache (mondayKey q vars) v CACHE_TTL_SECONDS,
         upstreamCalls := st0.upstreamCalls + 1 }) := by
    simp only [mondayCall, Bool.false_eq_true, if_false, hg2]
  refine ⟨by rw [h1], by rw [h1], by rw [h1], ?_, ?_⟩
  · rw [h1, h2]
  · rw [h1, h2]

/-- C10 witness: the exact create_item mutation of POST /timesheets,
submitted twice with identical variables inside the TTL window; the second
call returns the first creation and issues no second upstream request. -/
theorem c10_witness :
    (mondayCall 0 false createTsMutation "\x7b\"boardId\":\"123\"\x7d"
        (Except.ok "item-1") ⟨[], 0⟩).1 = Except.ok "item-1" ∧
    (mondayCall 1000 false createTsMutation "\x7b\"boardId\":\"123\"\x7d"
        (Except.error "would-create-a-second-item")
        ((mondayCall 0 false createTsMutation "\x7b\"boardId\":\"123\"\x7d"
          (Except.ok "item-1") ⟨[], 0⟩).2)).1 = Except.ok "item-1" ∧
    ((mondayCall 1000 false createTsMutation "\x7b\"boardId\":\"123\"\x7d"
        (Except.error "would-create-a-second-item")
        ((mondayCall 0 false createTsMutation "\x7b\"boardId\":\"123\"\x7d"
          (Except.ok "item-1") ⟨[], 0⟩).2)).2).upstreamCalls = 0 + 1 :=
  ⟨(c10_monday_request_caching String createTsMutation "\x7b\"boardId\":\"123\"\x7d"
      "item-1" (Except.error "would-create-a-second-item") 0 1000 ⟨[], 0⟩ rfl
      (by decide)).1,
   (c10_monday_request_caching String createTsMutation "\x7b\"boardId\":\"123\"\x7d"
      "item-1" (Except.error "would-create-a-second-item") 0 1000 ⟨[], 0⟩ rfl
      (by decide)).2.2.2.1,
   (c10_monday_request_caching String createTsMutation "\x7b\"boardId\":\"123\"\x7d"
      "item-1" (Except.error "would-create-a-second-item") 0 1000 ⟨[], 0⟩ rfl
      (by decide)).2.2.2.2⟩

/-! ## Claim C4 — failure handling and what the traversal caches -/

/-- C4, counterexample: the claim states nothing from an interrupted
traversal is stored in the TTL cache, but the monday() helper caches each
successful page response under its own per-page key as it arrives: after
page 1 succeeds and page 2 fails, the traversal aborts with the error yet
page 1's response sits in the cache. -/
theorem c4_counterexample :
    (jobsRouteRun 0 "jobs:k" "Q" (fun i => toString i)
        [Except.ok ⟨"p1", true⟩, Except.error "boom"] ⟨[], 0⟩
        ([] : Cache (List String))).1 = Except.error "boom" ∧
    (cacheLookup ((jobsRouteRun 0 "jobs:k" "Q" (fun i => toString i)
        [Except.ok ⟨"p1", true⟩, Except.error "boom"] ⟨[], 0⟩
        ([] : Cache (List String))).2.1).cache (mondayKey "Q" "0")).isSome = true := by
  decide

/-- C4, amended: any page-fetch failure aborts the whole traversal and
surfaces the error with no partial result, and the route-level cache
entry — keyed by the whole query identity — is populated only after the
complete traversal succeeds; however individual successful page responses
are cached by the monday() helper under per-page keys as they arrive. -/
theorem c4_failure_aborts :
    (∀ (V : Type) (now : Int) (routeKey q : String) (varsOf : Nat → String)
        (upstream : List (Except String (RPage V))) (mst : MondayState (RPage V))
        (rc : Cache (List V)) (e : String),
        (cacheGet now rc routeKey).1 = none →
        (runPagedTraversal now q varsOf 0 upstream mst).1 = Except.error e →
        (jobsRouteRun now routeKey q varsOf upstream mst rc).1 = Except.error e ∧
        cacheLookup (jobsRouteRun now routeKey q varsOf upstream mst rc).2.2 routeKey
          = none) ∧
    (∀ (V : Type) (now : Int) (routeKey q : String) (varsOf : Nat → String)
        (upstream : List (Except String (RPage V))) (mst : MondayState (RPage V))
        (rc : Cache (List V)) (pages : List V),
        (cacheGet now rc routeKey).1 = none →
        (runPagedTraversal now q varsOf 0 upstream mst).1 = Except.ok pages →
        (jobsRouteRun now routeKey q varsOf upstream mst rc).1 = Except.ok pages ∧
        cacheLookup (jobsRouteRun now routeKey q varsOf upstream mst rc).2.2 routeKey
          = some ⟨pages, now + (CACHE_TTL_SECONDS : Int) * 1000⟩) := by
  constructor
  · intro V now routeKey q varsOf upstream mst rc e h ht
    have hlk : cacheLookup (cacheGet now rc routeKey).2 routeKey = none :=
      cacheGet_none_lookup now rc routeKey h
    rcases hg : cacheGet now rc routeKey with ⟨o, rc1⟩
    rw [hg] at h hlk
    cases o with
    | some x => simp at h
    | none =>
      rcases htr : runPagedTraversal now q varsOf 0 upstream mst with ⟨res, mst1⟩
      rw [htr] at ht
      simp only at ht
      subst ht
      unfold jobsRouteRun
      rw [hg, htr]
      exact ⟨rfl, hlk⟩
  · intro V now routeKey q varsOf upstream mst rc pages h ht
    rcases hg : cacheGet now rc routeKey with ⟨o, rc1⟩
    rw [hg] at h
    cases o with
    | some x => simp at h
    | none =>
      rcases htr : runPagedTraversal now q varsOf 0 upstream mst with ⟨res, mst1⟩
      rw [htr] at ht
      simp only at ht
      subst ht
      unfold jobsRouteRun
      rw [hg, htr]
      exact ⟨rfl, cacheLookup_cons_self _ _ _⟩

/-- C4 witness: the abort characterization at the concrete failing run. -/
theorem c4_witness :
    (jobsRouteRun 0 "jobs:k" "Q" (fun i => toString i)
        [Except.ok ⟨"p1", true⟩, Except.error "boom"] ⟨[], 0⟩
        ([] : Cache (List String))).1 = Except.error "boom" ∧
    cacheLookup ((jobsRouteRun 0 "jobs:k" "Q" (fun i => toString i)
        [Except.ok ⟨"p1", true⟩, Except.error "boom"] ⟨[], 0⟩
        ([] : Cache (List String))).2.2) "jobs:k" = none :=
  c4_failure_aborts.1 String 0 "jobs:k" "Q" (fun i => toString i)
    [Except.ok ⟨"p1", true⟩, Except.error "boom"] ⟨[], 0⟩ [] "boom" rfl (by decide)

/-! ## Claim C8 — Mode B materials resolution -/

theorem findParent_eq_join (tok : String) :
    ∀ pp : List ParentPage,
      findParent tok pp = (pagesJoin pp).find? (fun it => strStartsWith it.name tok) := by
  intro pp
  induction pp with
  | nil => rfl
  | cons p rest ih =>
    simp only [findParent, pagesJoin, List.find?_append]
    cases hf : p.items.find? (fun it => strStartsWith it.name tok) with
    | some it => simp [hf]
    | none => cases hc : p.cursorPresent <;> simp [hf, hc, ih]

theorem findParent_append (tok : String) (pp1 pp2 : List ParentPage) (p : ParentItem)
    (h : findParent tok pp1 = some p) :
    findParent tok (pp1 ++ pp2) = some p := by
  induction pp1 with
  | nil => simp [findParent] at h
  | cons q rest ih =>
    simp only [findParent, List.cons_append] at h ⊢
    cases hf : q.items.find? (fun it => strStartsWith it.name tok) with
    | some it =>
      rw [hf] at h
      exact h
    | none =>
      rw [hf] at h
      cases hc : q.cursorPresent with
      | false => simp [hc] at h
      | true =>
        simp only [hc, if_true] at h ⊢
        exact ih h

/-- C8: with Mode B selected and a non-empty main token, the result is
determined by the first parent record (in traversal order) whose display
name starts with the main token: its children except those whose names
start with the token plus a dash, grouped by status; the parent search is
insensitive to any pages after the one containing the first match; and
the cited concrete example yields only "general supplies". -/
theorem c8_mode_b :
    (∀ (cfg : MatCfg) (sp : List SubPage) (pp : List ParentPage) (jr ms : String),
        (ms == "" || containsCI ms "no materials") = false →
        (cfg.titleColId == "" || cfg.notesColId == "" || cfg.statusColId == "") = false →
        containsCI ms "only sub task materials" = false →
        containsCI ms "include main scope materials" = true →
        ((splitJobTokens jr).mainToken == "" || cfg.parentBoardId == "") = false →
        getMaterialsForJob cfg sp pp jr ms =
          (match (pagesJoin pp).find?
              (fun it => strStartsWith it.name (splitJobTokens jr).mainToken) with
           | none => none
           | some parent =>
             match parent.subitems with
             | none => none
             | some sis =>
               if (caseBRows cfg (splitJobTokens jr).mainToken sis).isEmpty then none
               else some { mode := "Include Main Scope Materials",
                           byStatus := groupByStatus
                             (caseBRows cfg (splitJobTokens jr).mainToken sis) })) ∧
    (∀ (tok : String) (pp1 pp2 : List ParentPage) (p : ParentItem),
        findParent tok pp1 = some p → findParent tok (pp1 ++ pp2) = some p) ∧
    ((getMaterialsForJob ⟨"SB", "PB", "t", "n", "s", ""⟩ []
        [⟨[⟨"1", "2762 Main Job",
            some [⟨"10", "2762-5 tiles", []⟩, ⟨"11", "general supplies", []⟩]⟩], false⟩]
        "2762" "Include Main Scope Materials").map
      (fun r => ((r.byStatus.map (fun g => g.2)).flatten).map (fun x => x.name)))
      = some ["general supplies"] := by
  refine ⟨?_, findParent_append, by decide⟩
  intro cfg sp pp jr ms h0 hcols hA hB hTok
  simp only [getMaterialsForJob, h0, hcols, hA, hB, hTok, Bool.false_eq_true,
    eq_self_iff_true, if_true, if_false, findParent_eq_join]

/-- C8 witness: the Mode B characterization applied at the concrete
example input. -/
theorem c8_witness :
    getMaterialsForJob ⟨"SB", "PB", "t", "n", "s", ""⟩ []
        [⟨[⟨"1", "2762 Main Job",
            some [⟨"10", "2762-5 tiles", []⟩, ⟨"11", "general supplies", []⟩]⟩], false⟩]
        "2762" "Include Main Scope Materials" =
      (match (pagesJoin
          [⟨[⟨"1", "2762 Main Job",
              some [⟨"10", "2762-5 tiles", []⟩, ⟨"11", "general supplies", []⟩]⟩], false⟩]).find?
          (fun it => strStartsWith it.name (splitJobTokens "2762").mainToken) with
       | none => none
       | some parent =>
         match parent.subitems with
         | none => none
         | some sis =>
           if (caseBRows ⟨"SB", "PB", "t", "n", "s", ""⟩
               (splitJobTokens "2762").mainToken sis).isEmpty then none
           else some { mode := "Include Main Scope Materials",
                       byStatus := groupByStatus
                         (caseBRows ⟨"SB", "PB", "t", "n", "s", ""⟩
                           (splitJobTokens "2762").mainToken sis) }) :=
  c8_mode_b.1 ⟨"SB", "PB", "t", "n", "s", ""⟩ []
    [⟨[⟨"1", "2762 Main Job",
        some [⟨"10", "2762-5 tiles", []⟩, ⟨"11", "general supplies", []⟩]⟩], false⟩]
    "2762" "Include Main Scope Materials" (by decide) (by decide) (by decide) (by decide)
    (by decide)

/-! ## Claim C3 — early termination of the bounded page walk -/

theorem scanStep_of_stopped (P : ScanParams) (job : JobItem) (s : Subitem) (st : ScanState)
    (h : st.stopped = true) : scanStep P job st s = st := by
  unfold scanStep
  simp [h]

theorem foldl_scanStep_of_stopped (P : ScanParams) (job : JobItem) :
    ∀ (l : List Subitem) (st : ScanState), st.stopped = true →
      l.foldl (scanStep P job) st = st := by
  intro l
  induction l with
  | nil => intro st _; rfl
  | cons s t ih =>
    intro st h
    simp only [List.foldl]
    rw [scanStep_of_stopped P job s st h]
    exact ih st h

theorem scanSubs_of_stopped (P : ScanParams) (job : JobItem) (st : ScanState)
    (h : st.stopped = true) : scanSubs P job st = st :=
  foldl_scanStep_of_stopped P job ((job.subitems).getD []) st h

theorem foldl_scanSubs_of_stopped (P : ScanParams) :
    ∀ (items : List JobItem) (st : ScanState), st.stopped = true →
      items.foldl (fun acc j => scanSubs P j acc) st = st := by
  intro items
  induction items with
  | nil => intro st _; rfl
  | cons j t ih =>
    intro st h
    simp only [List.foldl]
    rw [scanSubs_of_stopped P j st h]
    exact ih st h

theorem scanStep_inv (P : ScanParams) (job : JobItem) (s : Subitem) (st : ScanState)
    (h : scanInv P st) : scanInv P (scanStep P job st s) := by
  obtain ⟨h1, h2⟩ := h
  unfold scanStep
  by_cases hstop : st.stopped = true
  · simp only [hstop, if_true]
    exact ⟨h1, h2⟩
  · rw [Bool.not_eq_true] at hstop
    simp only [hstop, Bool.false_eq_true, if_false]
    by_cases hpass : childPasses P.cfg P.contractorId P.email P.onDate P.includeWeekends s
        = true
    · simp only [hpass, Bool.not_true, Bool.false_eq_true, if_false]
      constructor
      · by_cases ha : st.total + 1 > P.offset <;> by_cases hb : st.collected < P.limit <;>
          simp only [ha, hb, decide_True, decide_False, Bool.and_self, Bool.true_and,
            Bool.and_true, Bool.and_false, Bool.false_and, Bool.false_eq_true,
            eq_self_iff_true, if_true, if_false] <;>
          omega
      · simp [Bool.and_eq_true, decide_eq_true_eq]
    · rw [Bool.not_eq_true] at hpass
      simp only [hpass, Bool.not_false, if_true]
      exact ⟨h1, h2⟩

theorem foldl_scanStep_inv (P : ScanParams) (job : JobItem) :
    ∀ (l : List Subitem) (st : ScanState), scanInv P st →
      scanInv P (l.foldl (scanStep P job) st) := by
  intro l
  induction l with
  | nil => intro st h; exact h
  | cons s t ih =>
    intro st h
    exact ih (scanStep P job st s) (scanStep_inv P job s st h)

theorem scanSubs_inv (P : ScanParams) (job : JobItem) (st : ScanState)
    (h : scanInv P st) : scanInv P (scanSubs P job st) :=
  foldl_scanStep_inv P job ((job.subitems).getD []) st h

theorem scanJobsPage_inv (P : ScanParams) :
    ∀ (items : List JobItem) (st : ScanState), scanInv P st →
      scanInv P (scanJobsPage P items st) := by
  intro items
  induction items with
  | nil => intro st h; exact h
  | cons j t ih =>
    intro st h
    exact ih (scanSubs P j st) (scanSubs_inv P j st h)

theorem scanStep_total (P : ScanParams) (job : JobItem) (s : Subitem) (st : ScanState)
    (h : st.stopped = false) :
    (scanStep P job st s).total = st.total +
      (if childPasses P.cfg P.contractorId P.email P.onDate P.includeWeekends s = true
       then 1 else 0) := by
  unfold scanStep
  simp only [h, Bool.false_eq_true, if_false]
  by_cases hpass : childPasses P.cfg P.contractorId P.email P.onDate P.includeWeekends s
      = true
  · simp [hpass]
  · rw [Bool.not_eq_true] at hpass
    simp [hpass]

theorem scanStep_stopped_false (P : ScanParams) (job : JobItem) (s : Subitem)
    (st : ScanState) (h : (scanStep P job st s).stopped = false) : st.stopped = false := by
  by_cases hs : st.stopped = true
  · rw [scanStep_of_stopped P job s st hs] at h
    exact h
  · rwa [Bool.not_eq_true] at hs

theorem passCountSubs_cons (P : ScanParams) (s : Subitem) (t : List Subitem) :
    passCountSubs P (s :: t) =
      (if childPasses P.cfg P.contractorId P.email P.onDate P.includeWeekends s = true
       then 1 else 0) + passCountSubs P t := by
  unfold passCountSubs
  by_cases h : childPasses P.cfg P.contractorId P.email P.onDate P.includeWeekends s = true
  · simp [List.filter_cons, h]
    omega
  · rw [Bool.not_eq_true] at h
    simp [List.filter_cons, h]

theorem foldl_scanStep_total (P : ScanParams) (job : JobItem) :
    ∀ (l : List Subitem) (st : ScanState),
      (l.foldl (scanStep P job) st).stopped = false →
      (l.foldl (scanStep P job) st).total = st.total + passCountSubs P l := by
  intro l
  induction l with
  | nil =>
    intro st _
    simp [passCountSubs]
  | cons s t ih =>
    intro st h
    simp only [List.foldl] at h ⊢
    have hst1 : (scanStep P job st s).stopped = false := by
      by_cases hx : (scanStep P job st s).stopped = true
      · rw [foldl_scanStep_of_stopped P job t _ hx] at h
        exact h
      · rwa [Bool.not_eq_true] at hx
    have hst0 : st.stopped = false := scanStep_stopped_false P job s st hst1
    rw [ih (scanStep P job st s) h, scanStep_total P job s st hst0, passCountSubs_cons]
    omega

theorem scanSubs_total (P : ScanParams) (job : JobItem) (st : ScanState)
    (h : (scanSubs P job st).stopped = false) :
    (scanSubs P job st).total = st.total + passCountSubs P ((job.subitems).getD []) :=
  foldl_scanStep_total P job ((job.subitems).getD []) st h

theorem scanSubs_stopped_false (P : ScanParams) (job : JobItem) (st : ScanState)
    (h : (scanSubs P job st).stopped = false) : st.stopped = false := by
  by_cases hs : st.stopped = true
  · rw [scanSubs_of_stopped P job st hs] at h
    exact h
  · rwa [Bool.not_eq_true] at hs

theorem scanJobsPage_total (P : ScanParams) :
    ∀ (items : List JobItem) (st : ScanState),
      (scanJobsPage P items st).stopped = false →
      (scanJobsPage P items st).total = st.total + passCountPage P items := by
  intro items
  induction items with
  | nil =>
    intro st _
    simp [scanJobsPage, passCountPage]
  | cons j t ih =>
    intro st h
    simp only [scanJobsPage, List.foldl] at h ⊢
    have h1 : (scanSubs P j st).stopped = false := by
      by_cases hx : (scanSubs P j st).stopped = true
      · rw [foldl_scanSubs_of_stopped P t _ hx] at h
        exact h
      · rwa [Bool.not_eq_true] at hx
    have := ih (scanSubs P j st) h
    simp only [scanJobsPage] at this
    rw [this, scanSubs_total P j st h1]
    simp [passCountPage]
    omega

theorem inv_total_lt (P : ScanParams) (st : ScanState) (hI : scanInv P st)
    (hs : st.stopped = false) : st.total < P.offset + P.limit := by
  obtain ⟨h1, h2⟩ := hI
  rw [hs] at h2
  simp only [Bool.false_eq_true, false_iff] at h2
  omega

theorem scanInit_inv (P : ScanParams) (h : 1 ≤ P.limit) : scanInv P scanInit := by
  unfold scanInv scanInit
  refine ⟨by simp, ?_⟩
  simp only [Bool.false_eq_true, false_iff]
  omega

theorem runScan_bound (P : ScanParams) :
    ∀ (pages : List JobsPage) (k : Nat) (st : ScanState),
      scanInv P st → st.stopped = false →
      P.offset + P.limit ≤ st.total + passCountPages P (pages.take k) →
      (runScan P pages st).2 ≤ k := by
  intro pages
  induction pages with
  | nil =>
    intro k st _ _ _
    simp [runScan]
  | cons p rest ih =>
    intro k st hI hs hneed
    have hlt : st.total < P.offset + P.limit := inv_total_lt P st hI hs
    cases k with
    | zero =>
      exfalso
      simp [passCountPages] at hneed
      omega
    | succ k0 =>
      have hI1 : scanInv P (scanJobsPage P p.items st) := scanJobsPage_inv P p.items st hI
      by_cases hs1 : (scanJobsPage P p.items st).stopped = true
      · unfold runScan
        simp [hs1]
      · rw [Bool.not_eq_true] at hs1
        have htot : (scanJobsPage P p.items st).total
            = st.total + passCountPage P p.items := scanJobsPage_total P p.items st hs1
        have hsplit : passCountPages P ((p :: rest).take (k0 + 1)) =
            passCountPage P p.items + passCountPages P (rest.take k0) := by
          simp [passCountPages, List.take_succ_cons]
        by_cases hc : p.cursorPresent = true
        · unfold runScan
          simp only [hs1, Bool.false_eq_true, if_false, hc, if_true]
          have hrec := ih k0 (scanJobsPage P p.items st) hI1 hs1 (by omega)
          omega
        · rw [Bool.not_eq_true] at hc
          unfold runScan
          simp [hs1, hc]

theorem runScan_cursor_bound (P : ScanParams) :
    ∀ (pages : List JobsPage) (st : ScanState),
      (runScan P pages st).2 ≤ (pages.takeWhile (fun q => q.cursorPresent)).length + 1 := by
  intro pages
  induction pages with
  | nil =>
    intro st
    simp [runScan]
  | cons p rest ih =>
    intro st
    unfold runScan
    by_cases hs : (scanJobsPage P p.items st).stopped = true
    · simp [hs]
    · rw [Bool.not_eq_true] at hs
      by_cases hc : p.cursorPresent = true
      · simp only [hs, Bool.false_eq_true, if_false, hc, if_true, List.takeWhile_cons,
          List.length_cons]
        have := ih (scanJobsPage P p.items st)
        omega
      · rw [Bool.not_eq_true] at hc
        simp [hs, hc, List.takeWhile_cons]

theorem runScan_inv (P : ScanParams) :
    ∀ (pages : List JobsPage) (st : ScanState), scanInv P st →
      scanInv P (runScan P pages st).1 := by
  intro pages
  induction pages with
  | nil => intro st h; exact h
  | cons p rest ih =>
    intro st h
    unfold runScan
    have h1 : scanInv P (scanJobsPage P p.items st) := scanJobsPage_inv P p.items st h
    by_cases hs : (scanJobsPage P p.items st).stopped = true
    · simp [hs]
      exact h1
    · rw [Bool.not_eq_true] at hs
      by_cases hc : p.cursorPresent = true
      · simp only [hs, Bool.false_eq_true, if_false, hc, if_true]
        exact ih (scanJobsPage P p.items st) h1
      · rw [Bool.not_eq_true] at hc
        simp [hs, hc]
        exact h1

/-- C3: the bounded page walk stops as soon as the break condition
(`collected >= limit && totalSeen >= offset + limit`, which under the
loop invariant means collected equals limit) fires inside a page — that
page is the last one fetched; it also stops at a page whose cursor is
absent; consequently the number of page fetches never exceeds the number
of pages needed to see `offset + limit` passing children.  The final
state satisfies the invariant tying the break flag to exactly that
condition. -/
theorem c3_early_termination :
    (∀ (P : ScanParams) (p : JobsPage) (rest : List JobsPage) (st : ScanState),
        (scanJobsPage P p.items st).stopped = true →
        runScan P (p :: rest) st = (scanJobsPage P p.items st, 1)) ∧
    (∀ (P : ScanParams) (pages : List JobsPage) (st : ScanState),
        (runScan P pages st).2 ≤ (pages.takeWhile (fun q => q.cursorPresent)).length + 1) ∧
    (∀ (P : ScanParams) (pages : List JobsPage) (k : Nat),
        1 ≤ P.limit →
        P.offset + P.limit ≤ passCountPages P (pages.take k) →
        (runScan P pages scanInit).2 ≤ k) ∧
    (∀ (P : ScanParams) (pages : List JobsPage),
        1 ≤ P.limit → scanInv P (runScan P pages scanInit).1) := by
  refine ⟨?_, runScan_cursor_bound, ?_, ?_⟩
  · intro P p rest st h
    unfold runScan
    simp [h]
  · intro P pages k hlim hneed
    exact runScan_bound P pages k scanInit (scanInit_inv P hlim) rfl
      (by simpa [scanInit] using hneed)
  · intro P pages hlim
    exact runScan_inv P pages scanInit (scanInit_inv P hlim)

/-- C3 witness: a one-page request that satisfies the window on its first
page fetches at most one page. -/
theorem c3_witness :
    (runScan ⟨⟨none, none, none, none, some "e"⟩, "1", "a@b.com", "", true, 0, 1⟩
        [⟨[⟨"j", "j", none, some [⟨"s1", "s1", [("e", ⟨some "a@b.com", none⟩)]⟩]⟩], true⟩]
        scanInit).2 ≤ 1 :=
  c3_early_termination.2.2.1
    ⟨⟨none, none, none, none, some "e"⟩, "1", "a@b.com", "", true, 0, 1⟩
    [⟨[⟨"j", "j", none, some [⟨"s1", "s1", [("e", ⟨some "a@b.com", none⟩)]⟩]⟩], true⟩] 1
    (by decide) (by decide)

end WorkerApi
